import Mathlib

/-!
Verification of `dopamine/discrete_domains/gym_lib.py`.

The file shallowly embeds, in Lean, the pure content of:
* `DoubleRoomWindyGridWorldEnv` (`step`, `reset`, and its constructor constants),
* `FourierBasis` (`__init__`'s multiplier matrix and `compute_features`),
* `BasicDiscreteDomainNetwork.call`'s input normalization,
* the Rainbow networks' `call` (including the Python-level semantics of
  `self.softmax = tf.keras.layers.Softmax` followed by `self.softmax(logits)`),
* `GymPreprocessing` (delegation wrapper, `game_over` tracking).

Machine floats are idealized as real numbers; the stochastic "slip" in the
gridworld is handled by quantifying over the executed action.
-/

namespace GymLib

/-! ### DoubleRoomWindyGridWorldEnv : constructor constants -/

/-- `self.width = 5 * 2 + 1`. -/
def width : ℤ := 5 * 2 + 1

/-- `self.height = 14`. -/
def height : ℤ := 14

/-- `self.moves = {0: (-1, 0), 1: (0, 1), 2: (1, 0), 3: (0, -1)}`
(pairs are (row delta, column delta)). -/
def moves : Fin 4 → ℤ × ℤ
  | ⟨0, _⟩ => (-1, 0)
  | ⟨1, _⟩ => (0, 1)
  | ⟨2, _⟩ => (1, 0)
  | ⟨3, _⟩ => (0, -1)

/-- `self.windy_columns = [1, 2, 3, 4]`. -/
def windy_columns : List ℤ := [1, 2, 3, 4]

/-- `self.windy_levels = [1, 2, 2, 2]`. -/
def windy_levels : List ℤ := [1, 2, 2, 2]

/-- `self.start_state = (self.height - 1, 0)`. -/
def start_state : ℤ × ℤ := (height - 1, 0)

/-- `self.goal_state = (self.height - 1, self.width - 1)`. -/
def goal_state : ℤ × ℤ := (height - 1, width - 1)

/-- `self.door_y = int((self.width - 1) / 2)`. -/
def door_y : ℤ := (width - 1) / 2

/-- `self.wall_xs = list(range(self.height)); self.wall_xs.remove(3)`. -/
def wall_xs : List ℤ := (((List.range 14).map fun n => (n : ℤ)).erase 3)

/-- `np.clip(v, lo, hi)`. -/
def clip (v lo hi : ℤ) : ℤ := min (max v lo) hi

/-! ### DoubleRoomWindyGridWorldEnv.step

The random slip (`np.random.random() < self.random_action_prob`) replaces the
requested action by a uniformly random one; in either case the executed
(`real_action`) is one of the four actions, so the transition is modelled as a
deterministic function of the pre-state and the executed action, and claims
quantify over the executed action. -/

/-- New position computed by `step`, given position `p = (x, y)` and the
executed action: wind shift on the row, row move (frozen at the door column),
row clip, door/wall check on the clipped row, column clip. -/
def stepPos (p : ℤ × ℤ) (a : Fin 4) : ℤ × ℤ :=
  let m := moves a
  let x1 := if p.2 ∈ windy_columns then
      p.1 - windy_levels.getD (windy_columns.indexOf p.2) 0
    else p.1
  let next_x := if p.2 = door_y then x1 else x1 + m.1
  let x2 := clip next_x 0 (height - 1)
  let next_y := if p.2 + m.2 = door_y then
      (if x2 ∈ wall_xs then p.2 else door_y)
    else p.2 + m.2
  let y2 := clip next_y 0 (width - 1)
  (x2, y2)

/-- Full result of `step`: `(next_state, reward, done)`
(`reward = 1 if next_state == self.goal_state else 0`,
 `done = next_state == self.goal_state`). -/
def gridStep (p : ℤ × ℤ) (a : Fin 4) : (ℤ × ℤ) × ℤ × Bool :=
  let next_state := stepPos p a
  (next_state, if next_state = goal_state then 1 else 0,
   decide (next_state = goal_state))

/-- `reset`: sets `(self.x, self.y) = self.start_state` and returns
`(self.start_state, 0, False)`; the argument is the pre-state (ignored). -/
def gridReset (_ : ℤ × ℤ) : (ℤ × ℤ) × ((ℤ × ℤ) × ℤ × Bool) :=
  (start_state, (start_state, 0, false))

/-- Positions reachable from `reset()` by any sequence of `step` calls with
any executed (possibly slip-replaced) action. -/
inductive Reachable : ℤ × ℤ → Prop
  | reset : Reachable start_state
  | step (p : ℤ × ℤ) (a : Fin 4) : Reachable p → Reachable (stepPos p a)

/-- The gridworld invariant: in bounds, and the `assert` of `step`
(`not (self.x in self.wall_xs and self.y == self.door_y)`). -/
def Inv (p : ℤ × ℤ) : Prop :=
  (0 ≤ p.1 ∧ p.1 ≤ height - 1) ∧ (0 ≤ p.2 ∧ p.2 ≤ width - 1) ∧
    ¬(p.1 ∈ wall_xs ∧ p.2 = door_y)

instance (p : ℤ × ℤ) : Decidable (Inv p) := by unfold Inv; infer_instance

end GymLib

namespace GymLib

lemma inv_start : Inv start_state := by decide

lemma stepPos_preserves_inv (p : ℤ × ℤ) (a : Fin 4) (h : Inv p) :
    Inv (stepPos p a) := by
  have key : ∀ x ∈ Finset.Icc (0 : ℤ) 13, ∀ y ∈ Finset.Icc (0 : ℤ) 10,
      ∀ a : Fin 4, ¬(x ∈ wall_xs ∧ y = door_y) → Inv (stepPos (x, y) a) := by
    decide
  obtain ⟨⟨h1, h2⟩, ⟨h3, h4⟩, h5⟩ := h
  have hx : p.1 ∈ Finset.Icc (0 : ℤ) 13 := by
    refine Finset.mem_Icc.2 ⟨h1, ?_⟩
    simpa [height] using h2
  have hy : p.2 ∈ Finset.Icc (0 : ℤ) 10 := by
    refine Finset.mem_Icc.2 ⟨h3, ?_⟩
    simpa [width] using h4
  have := key p.1 hx p.2 hy a h5
  simpa using this

/-- Claim C2: every position reachable from `reset()` by any sequence of
`step` calls (any action, any slip outcome) stays within
`[0, height-1] × [0, width-1]` and never has its row in `wall_xs` while its
column equals `door_y`; in particular the assertion in `step` never fails. -/
theorem reachable_invariant (p : ℤ × ℤ) (h : Reachable p) : Inv p := by
  induction h with
  | reset => exact inv_start
  | step q a _ ih => exact stepPos_preserves_inv q a ih

/-- Witness for C2: the invariant holds at the start state and at one
concrete stepped state. -/
theorem reachable_invariant_witness :
    Inv start_state ∧ Inv (stepPos start_state 1) :=
  ⟨reachable_invariant start_state Reachable.reset,
   reachable_invariant (stepPos start_state 1)
     (Reachable.step start_state 1 Reachable.reset)⟩

/-- Claim C4: for every pre-state and executed action, `step` returns
reward 1 and `done = true` iff the new position equals the goal cell
`(height - 1, width - 1)`, and otherwise reward 0 and `done = false`. -/
theorem gridStep_reward_done (p : ℤ × ℤ) (a : Fin 4) :
    ((gridStep p a).2.2 = true ↔ (gridStep p a).1 = goal_state) ∧
    ((gridStep p a).1 = goal_state →
      (gridStep p a).2.1 = 1 ∧ (gridStep p a).2.2 = true) ∧
    ((gridStep p a).1 ≠ goal_state →
      (gridStep p a).2.1 = 0 ∧ (gridStep p a).2.2 = false) ∧
    goal_state = (height - 1, width - 1) := by
  refine ⟨by simp [gridStep], ?_, ?_, rfl⟩
  · intro h
    simp [gridStep] at h ⊢
    simp [h]
  · intro h
    simp [gridStep] at h ⊢
    simp [h]

/-- Witness for C4 (its statement has conditional parts): from `(13, 9)`
action 1 (right) reaches the goal `(13, 10)` with reward 1 and
`done = true`; from the start cell action 0 (up) gives reward 0 and
`done = false`. -/
theorem gridStep_reward_done_witness :
    (gridStep (13, 9) 1).2.1 = 1 ∧ (gridStep (13, 9) 1).2.2 = true ∧
    (gridStep (13, 0) 0).2.1 = 0 ∧ (gridStep (13, 0) 0).2.2 = false := by
  have h1 := gridStep_reward_done (13, 9) 1
  have h2 := gridStep_reward_done (13, 0) 0
  exact ⟨(h1.2.1 (by decide)).1, (h1.2.1 (by decide)).2,
    (h2.2.2.1 (by decide)).1, (h2.2.2.1 (by decide)).2⟩

/-- Claim C5: `reset()` sets the position to the fixed start cell
`(height - 1, 0)` and returns that start cell with reward 0 and
`done = false`, from any pre-state. -/
theorem gridReset_spec (p : ℤ × ℤ) :
    (gridReset p).1 = start_state ∧
    (gridReset p).2 = (start_state, 0, false) ∧
    start_state = (height - 1, 0) :=
  ⟨rfl, rfl, rfl⟩

/-! ### Claim C3: the claimed order of operations inside `step`

The claim describes `step` as: wind shift, row delta (frozen at the door
column), the door/wall column rule, then finally clamping of both
coordinates.  `claimedStepPos` is that literal description; the code instead
clamps the row before the door/wall check reads it. -/

/-- The transition as literally described by claim C3: row fully computed
(wind, then delta unless at the door column), column rule applied using that
unclamped row, and only then both coordinates clamped. -/
def claimedStepPos (p : ℤ × ℤ) (a : Fin 4) : ℤ × ℤ :=
  let m := moves a
  let xw := if p.2 ∈ windy_columns then
      p.1 - windy_levels.getD (windy_columns.indexOf p.2) 0
    else p.1
  let xr := if p.2 = door_y then xw else xw + m.1
  let yr := if p.2 + m.2 = door_y then
      (if xr ∈ wall_xs then p.2 else door_y)
    else p.2 + m.2
  (clip xr 0 (height - 1), clip yr 0 (width - 1))

/-- Counterexample to C3 as stated: from position `(0, 4)` with executed
action 1 (right), the code's step (row clamped before the door/wall check)
stays at `(0, 4)`, while the claimed order (both coordinates clamped at the
end, the door/wall check reading the unclamped row `-2 ∉ wall_xs`) would
move through the wall to `(0, 5)`. -/
theorem step_clamp_order_counterexample :
    stepPos (0, 4) 1 ≠ claimedStepPos (0, 4) 1 ∧
    stepPos (0, 4) 1 = (0, 4) ∧ claimedStepPos (0, 4) 1 = (0, 5) := by
  decide

/-- The amended description of `step`, staged exactly as claim C3 words it
except that the row is clamped to the grid bounds before the door/wall
check (which reads the clamped row), the column rule then runs, and the
column is clamped at the end. -/
def amendedStepPos (p : ℤ × ℤ) (a : Fin 4) : ℤ × ℤ :=
  let m := moves a
  let xw := if p.2 ∈ windy_columns then
      p.1 - windy_levels.getD (windy_columns.indexOf p.2) 0
    else p.1
  let xr := if p.2 = door_y then xw else xw + m.1
  let xc := clip xr 0 (height - 1)
  let yr := if p.2 + m.2 = door_y then
      (if xc ∈ wall_xs then p.2 else door_y)
    else p.2 + m.2
  (xc, clip yr 0 (width - 1))

/-- Claim C3, amended: for every pre-state and executed action, `step`'s new
position is obtained by the wind shift, the row delta (frozen at the door
column), clamping the row, the door/wall rule on the clamped row, and
clamping the column. -/
theorem stepPos_eq_amended (p : ℤ × ℤ) (a : Fin 4) :
    stepPos p a = amendedStepPos p a := rfl

/-! ### FourierBasis.__init__ : the multiplier matrix

`terms = itertools.product(range(order + 1), repeat=nvars)` yields the
tuples of `{0..order}^nvars` in lexicographic order (first coordinate
slowest); `self.multipliers` drops the first tuple (the all-zero bias row). -/

/-- `itertools.product(range(order + 1), repeat=nvars)`, in the same
(lexicographic, first coordinate outermost) order. -/
def productTuples (order : ℕ) : ℕ → List (List ℕ)
  | 0 => [[]]
  | n + 1 =>
      (List.range (order + 1)).flatMap fun d =>
        (productTuples order n).map fun t => d :: t

/-- `self.multipliers = [list(map(int, x)) for x in terms][1:]` (entries kept
as naturals; the float cast does not change them). -/
def multipliers (order nvars : ℕ) : List (List ℕ) :=
  (productTuples order nvars).drop 1

lemma productTuples_length (order n : ℕ) :
    (productTuples order n).length = (order + 1) ^ n := by
  induction n with
  | zero => rfl
  | succ n ih =>
      simp [productTuples, List.length_flatMap, Function.comp_def, ih,
        List.map_const]
      rw [pow_succ, Nat.mul_comm]

lemma mem_productTuples (order n : ℕ) (t : List ℕ) :
    t ∈ productTuples order n ↔ t.length = n ∧ ∀ d ∈ t, d ≤ order := by
  induction n generalizing t with
  | zero =>
      simp only [productTuples, List.mem_singleton]
      constructor
      · rintro rfl; simp
      · rintro ⟨h, -⟩; exact List.eq_nil_of_length_eq_zero h
  | succ n ih =>
      simp only [productTuples, List.mem_flatMap, List.mem_map, List.mem_range]
      constructor
      · rintro ⟨d, hd, t', ht', rfl⟩
        rcases (ih t').1 ht' with ⟨hlen, hbd⟩
        refine ⟨by simp [hlen], ?_⟩
        intro e he
        rcases List.mem_cons.1 he with rfl | he'
        · omega
        · exact hbd e he'
      · rintro ⟨hlen, hbd⟩
        rcases t with - | ⟨d, t'⟩
        · simp at hlen
        · refine ⟨d, ?_, t', ?_, rfl⟩
          · have := hbd d (List.mem_cons_self d t')
            omega
          · refine (ih t').2 ⟨by simpa using hlen, ?_⟩
            intro e he
            exact hbd e (List.mem_cons_of_mem d he)

lemma productTuples_head (order n : ℕ) :
    ∃ l, productTuples order n = List.replicate n 0 :: l ∧
      List.replicate n 0 ∉ l := by
  induction n with
  | zero => exact ⟨[], rfl, by simp⟩
  | succ n ih =>
      obtain ⟨l, hl, hnotin⟩ := ih
      refine ⟨(l.map fun t => 0 :: t) ++
        ((List.range order).map Nat.succ).flatMap
          (fun d => (productTuples order n).map fun t => d :: t), ?_, ?_⟩
      · rw [productTuples, List.range_succ_eq_map, List.flatMap_cons, hl]
        simp [List.replicate_succ]
      · intro hmem
        rcases List.mem_append.1 hmem with h | h
        · rcases List.mem_map.1 h with ⟨t, ht, heq⟩
          rw [List.replicate_succ] at heq
          simp only [List.cons.injEq, true_and] at heq
          exact hnotin (heq ▸ ht)
        · rcases List.mem_flatMap.1 h with ⟨d, hd, hdm⟩
          rcases List.mem_map.1 hdm with ⟨t, -, heq⟩
          rcases List.mem_map.1 hd with ⟨e, -, rfl⟩
          rw [List.replicate_succ] at heq
          simp at heq

/-- Claim C6: for every `order ≥ 0` and `nvars ≥ 0`, the multiplier matrix
built by `FourierBasis.__init__` has exactly `(order+1)^nvars - 1` rows, has
no duplicate rows, and contains a row `t` iff `t` is a vector of
`{0..order}^nvars` other than the all-zero vector (which is absent). -/
theorem multipliers_spec (order nvars : ℕ) :
    (multipliers order nvars).length = (order + 1) ^ nvars - 1 ∧
    ∀ t : List ℕ, t ∈ multipliers order nvars ↔
      (t.length = nvars ∧ (∀ d ∈ t, d ≤ order) ∧
        t ≠ List.replicate nvars 0) := by
  obtain ⟨l, hl, hnotin⟩ := productTuples_head order nvars
  constructor
  · rw [multipliers, List.length_drop, productTuples_length]
  · intro t
    rw [multipliers, hl]
    simp only [List.drop_one, List.tail_cons]
    constructor
    · intro ht
      have hmem : t ∈ productTuples order nvars := by
        rw [hl]; exact List.mem_cons_of_mem _ ht
      rcases (mem_productTuples order nvars t).1 hmem with ⟨h1, h2⟩
      refine ⟨h1, h2, ?_⟩
      rintro rfl
      exact hnotin ht
    · rintro ⟨h1, h2, h3⟩
      have hmem : t ∈ productTuples order nvars :=
        (mem_productTuples order nvars t).2 ⟨h1, h2⟩
      rw [hl] at hmem
      rcases List.mem_cons.1 hmem with rfl | h
      · exact absurd rfl h3
      · exact h

/-- Witness for C6 (the membership direction has hypotheses): at
`order = 1`, `nvars = 2` the matrix has 3 rows, contains `[1, 0]`, and does
not contain `[0, 0]`. -/
theorem multipliers_spec_witness :
    (multipliers 1 2).length = 3 ∧ [1, 0] ∈ multipliers 1 2 ∧
      [0, 0] ∉ multipliers 1 2 := by
  have h := multipliers_spec 1 2
  refine ⟨by simpa using h.1, ?_, ?_⟩
  · exact (h.2 [1, 0]).2 ⟨by decide, by decide, by decide⟩
  · intro hmem
    have := (h.2 [0, 0]).1 hmem
    exact this.2.2 (by decide)

/-! ### FourierBasis.scale / compute_features

Vectors are lists of reals (idealizing float32); `tf.matmul(scaled,
multipliers, transpose_b=True)` applied to a row vector yields one dot
product of `scaled` with each multiplier row. -/

/-- Dot product of two (equal-length) vectors. -/
def dot (a b : List ℝ) : ℝ := (List.zipWith (· * ·) a b).sum

/-- `FourierBasis.scale`: `shifted = values - self.min_vals`; returns
`shifted` when `self.max_vals is None`, else
`shifted / (self.max_vals - self.min_vals)`. -/
noncomputable def fourierScale (min_vals : List ℝ) (max_vals : Option (List ℝ))
    (values : List ℝ) : List ℝ :=
  let shifted := List.zipWith (· - ·) values min_vals
  match max_vals with
  | none => shifted
  | some mx => List.zipWith (· / ·) shifted (List.zipWith (· - ·) mx min_vals)

/-- `FourierBasis.compute_features`:
`tf.cos(np.pi * tf.matmul(self.scale(features), self.multipliers,
transpose_b=True))`, with the multiplier matrix given by its rows. -/
noncomputable def compute_features (min_vals : List ℝ)
    (max_vals : Option (List ℝ)) (mult : List (List ℝ))
    (features : List ℝ) : List ℝ :=
  mult.map fun row =>
    Real.cos (Real.pi * dot (fourierScale min_vals max_vals features) row)

/-- Claim C7: `compute_features` equals `cos(π · scale(features) ·
multipliersᵗ)` where scaling is the pure shift `features - min_vals` when
`max_vals` is absent (so the output depends only on `features - min_vals`)
and the rescale `(features - min_vals) / (max_vals - min_vals)` when
`max_vals` is given; it is a pure function of its inputs. -/
theorem compute_features_spec (min_vals : List ℝ) (mult : List (List ℝ))
    (features : List ℝ) :
    (compute_features min_vals none mult features = mult.map fun row =>
      Real.cos (Real.pi *
        dot (List.zipWith (· - ·) features min_vals) row)) ∧
    (∀ max_vals : List ℝ,
      compute_features min_vals (some max_vals) mult features =
        mult.map fun row => Real.cos (Real.pi *
          dot (List.zipWith (· / ·)
            (List.zipWith (· - ·) features min_vals)
            (List.zipWith (· - ·) max_vals min_vals)) row)) ∧
    (∀ (min_vals' features' : List ℝ),
      List.zipWith (· - ·) features min_vals =
          List.zipWith (· - ·) features' min_vals' →
      compute_features min_vals none mult features =
        compute_features min_vals' none mult features') := by
  refine ⟨rfl, fun _ => rfl, ?_⟩
  intro mn' f' h
  simp only [compute_features, fourierScale, h]

/-- Witness for C7: translation invariance at a concrete input, via the
theorem's last conjunct. -/
theorem compute_features_spec_witness :
    compute_features [0] none [[1]] [1] =
      compute_features [1] none [[1]] [2] :=
  (compute_features_spec [0] [[1]] [1]).2.2 [1] [2] (by norm_num)

/-! ### BasicDiscreteDomainNetwork.call : input normalization

`x -= self.min_vals; x /= self.max_vals - self.min_vals;
x = 2.0 * x - 1.0`, componentwise over the flattened state. -/

/-- The normalized input fed into the first dense layer. -/
noncomputable def normalizeInput (min_vals max_vals state : List ℝ) :
    List ℝ :=
  (List.zipWith (· / ·) (List.zipWith (· - ·) state min_vals)
    (List.zipWith (· - ·) max_vals min_vals)).map fun v => 2 * v - 1

/-- `BasicDiscreteDomainNetwork.call` with the dense layers abstracted as
functions of the (normalized) input. -/
noncomputable def basicDiscreteDomainCall (min_vals max_vals : List ℝ)
    (dense1 dense2 last_layer : List ℝ → List ℝ) (state : List ℝ) :
    List ℝ :=
  last_layer (dense2 (dense1 (normalizeInput min_vals max_vals state)))

/-- Claim C8: when `max_vals > min_vals` componentwise (same lengths), the
normalized input of `BasicDiscreteDomainNetwork.call` is `-1` in every
coordinate at `state = min_vals` and `+1` in every coordinate at
`state = max_vals`. -/
theorem normalizeInput_endpoints (min_vals max_vals : List ℝ)
    (hlen : min_vals.length = max_vals.length)
    (hlt : ∀ p ∈ min_vals.zip max_vals, p.1 < p.2) :
    normalizeInput min_vals max_vals min_vals =
      List.replicate min_vals.length (-1) ∧
    normalizeInput min_vals max_vals max_vals =
      List.replicate min_vals.length 1 := by
  induction min_vals generalizing max_vals with
  | nil =>
      cases max_vals with
      | nil => exact ⟨rfl, rfl⟩
      | cons mx mxs => simp at hlen
  | cons mn mns ih =>
      cases max_vals with
      | nil => simp at hlen
      | cons mx mxs =>
        have hlen' : mns.length = mxs.length := by simpa using hlen
        have hhd : mn < mx := hlt (mn, mx) (by simp)
        have hlt' : ∀ p ∈ mns.zip mxs, p.1 < p.2 := by
          intro p hp
          exact hlt p (List.mem_cons_of_mem _ hp)
        obtain ⟨ih1, ih2⟩ := ih mxs hlen' hlt'
        have hne : mx - mn ≠ 0 := sub_ne_zero.2 (ne_of_gt hhd)
        simp only [normalizeInput, List.zipWith_cons_cons, List.map_cons,
          List.length_cons, List.replicate_succ] at ih1 ih2 ⊢
        constructor
        · rw [ih1]
          norm_num
        · rw [ih2]
          rw [div_self hne]
          norm_num

/-- Witness for C8: with `min_vals = [0, 1]`, `max_vals = [2, 3]` the
normalized input is `[-1, -1]` at the minimum and `[1, 1]` at the maximum. -/
theorem normalizeInput_endpoints_witness :
    normalizeInput [0, 1] [2, 3] [0, 1] = [-1, -1] ∧
    normalizeInput [0, 1] [2, 3] [2, 3] = [1, 1] := by
  have h := normalizeInput_endpoints [0, 1] [2, 3] (by norm_num)
    (by norm_num)
  simpa using h

/-! ### CartpoleRainbowNetwork.call / AcrobotRainbowNetwork.call

Both constructors store `self.softmax = tf.keras.layers.Softmax` — the
*class object*, not a layer instance.  In `call`,
`probabilities = self.softmax(logits)` therefore invokes the class, i.e.
constructs `Softmax(axis=logits)`, a layer object, instead of applying a
softmax to the logits.  The subsequent `self.support * probabilities`
multiplies a tensor by a layer object, which TensorFlow rejects (the layer
cannot be converted to a tensor), so `call` raises instead of returning.
The embedding models the Python values involved at exactly this
granularity. -/

/-- The Python values flowing through the Rainbow `call`: rank-1/2/3
tensors, the `tf.keras.layers.Softmax` class object, and a constructed
`Softmax(axis=...)` layer instance. -/
inductive PyVal where
  | tensor1 : List ℝ → PyVal
  | tensor2 : List (List ℝ) → PyVal
  | tensor3 : List (List (List ℝ)) → PyVal
  | softmaxClass : PyVal
  | softmaxLayer : PyVal → PyVal

/-- Python call semantics for the stored `self.softmax` attribute: calling
the `Softmax` class constructs a layer with the argument as `axis`; a layer
instance applied to a rank-3 tensor computes a softmax (not reached by this
code); tensors are not callable. -/
def pyCall (f arg : PyVal) : Except String PyVal :=
  match f with
  | PyVal.softmaxClass => Except.ok (PyVal.softmaxLayer arg)
  | _ => Except.error "TypeError: object is not callable"

/-- `tf` multiplication with broadcasting of a rank-1 tensor against a
rank-3 tensor; any operand that is not a tensor (e.g. a layer object)
cannot be converted to a tensor and raises. -/
def pyMul (a b : PyVal) : Except String PyVal :=
  match a, b with
  | PyVal.tensor1 s, PyVal.tensor3 p =>
      Except.ok (PyVal.tensor3 (p.map fun m =>
        m.map fun row => List.zipWith (· * ·) s row))
  | _, _ => Except.error "TypeError: cannot convert to tensor"

/-- `tf.reshape(x, [-1, num_actions, num_atoms])` on a batch of flat
output rows. -/
def reshapeLogits (num_actions num_atoms : ℕ) (x : List (List ℝ)) :
    List (List (List ℝ)) :=
  x.map fun row =>
    (List.range num_actions).map fun a =>
      (List.range num_atoms).map fun j => row.getD (a * num_atoms + j) 0

/-- `tf.reduce_sum(t, axis=2)`. -/
def reduceSumAxis2 (t : List (List (List ℝ))) : List (List ℝ) :=
  t.map fun m => m.map List.sum

/-- The value stored by the Rainbow constructors:
`self.softmax = tf.keras.layers.Softmax` (the class object). -/
def rainbowSoftmaxAttr : PyVal := PyVal.softmaxClass

/-- The body of `CartpoleRainbowNetwork.call` / `AcrobotRainbowNetwork.call`
after `x = self.net(state)`: reshape to logits, `self.softmax(logits)`,
`self.support * probabilities`, `reduce_sum(axis=2)`, and the returned
`(q_values, logits, probabilities)` triple. -/
def rainbowCall (num_actions num_atoms : ℕ) (softmaxAttr : PyVal)
    (support : List ℝ) (netOut : List (List ℝ)) :
    Except String (List (List ℝ) × List (List (List ℝ)) × PyVal) :=
  let logits := reshapeLogits num_actions num_atoms netOut
  match pyCall softmaxAttr (PyVal.tensor3 logits) with
  | Except.error e => Except.error e
  | Except.ok probabilities =>
      match pyMul (PyVal.tensor1 support) probabilities with
      | Except.error e => Except.error e
      | Except.ok weighted =>
          match weighted with
          | PyVal.tensor3 w =>
              Except.ok (reduceSumAxis2 w, logits, probabilities)
          | _ => Except.error "TypeError: cannot convert to tensor"

/-- `gym_lib.CARTPOLE_MIN_VALS`. -/
noncomputable def CARTPOLE_MIN_VALS : List ℝ :=
  [-2.4, -5, -Real.pi / 12, -Real.pi * 2]

/-- `gym_lib.CARTPOLE_MAX_VALS`. -/
noncomputable def CARTPOLE_MAX_VALS : List ℝ :=
  [2.4, 5, Real.pi / 12, Real.pi * 2]

/-- `gym_lib.ACROBOT_MIN_VALS`. -/
def ACROBOT_MIN_VALS : List ℝ := [-1, -1, -1, -1, -5, -5]

/-- `gym_lib.ACROBOT_MAX_VALS`. -/
def ACROBOT_MAX_VALS : List ℝ := [1, 1, 1, 1, 5, 5]

/-- `CartpoleRainbowNetwork.call` on a single state, with the dense layers
of the inner `BasicDiscreteDomainNetwork` abstracted as functions. -/
noncomputable def cartpoleRainbowNetworkCall (num_actions num_atoms : ℕ)
    (dense1 dense2 last_layer : List ℝ → List ℝ) (support : List ℝ)
    (state : List ℝ) :
    Except String (List (List ℝ) × List (List (List ℝ)) × PyVal) :=
  rainbowCall num_actions num_atoms rainbowSoftmaxAttr support
    [basicDiscreteDomainCall CARTPOLE_MIN_VALS CARTPOLE_MAX_VALS
      dense1 dense2 last_layer state]

/-- `AcrobotRainbowNetwork.call` on a single state, with the dense layers
of the inner `BasicDiscreteDomainNetwork` abstracted as functions. -/
noncomputable def acrobotRainbowNetworkCall (num_actions num_atoms : ℕ)
    (dense1 dense2 last_layer : List ℝ → List ℝ) (support : List ℝ)
    (state : List ℝ) :
    Except String (List (List ℝ) × List (List (List ℝ)) × PyVal) :=
  rainbowCall num_actions num_atoms rainbowSoftmaxAttr support
    [basicDiscreteDomainCall ACROBOT_MIN_VALS ACROBOT_MAX_VALS
      dense1 dense2 last_layer state]

/-- Claim C1 (code bug): for every input state, network weights, support
vector and shape, the Rainbow `call` never produces a probabilities tensor
at all: `self.softmax(logits)` constructs a `Softmax(axis=logits)` layer
object (because `self.softmax` is the class, not an instance), so the
multiplication `self.support * probabilities` raises, and the claimed
softmax/q-value outputs are never returned — for Cartpole and Acrobot
alike. -/
theorem rainbowCall_raises (num_actions num_atoms : ℕ) (support : List ℝ)
    (netOut : List (List ℝ)) (dense1 dense2 last_layer : List ℝ → List ℝ)
    (state : List ℝ) :
    rainbowCall num_actions num_atoms rainbowSoftmaxAttr support netOut =
      Except.error "TypeError: cannot convert to tensor" ∧
    cartpoleRainbowNetworkCall num_actions num_atoms dense1 dense2
      last_layer support state =
        Except.error "TypeError: cannot convert to tensor" ∧
    acrobotRainbowNetworkCall num_actions num_atoms dense1 dense2
      last_layer support state =
        Except.error "TypeError: cannot convert to tensor" :=
  ⟨rfl, rfl, rfl⟩

/-- The softmax the documentation and the claim intend
(`p_i = exp x_i / Σ_j exp x_j` along the atom axis). -/
noncomputable def softmaxVec (xs : List ℝ) : List ℝ :=
  xs.map fun x => Real.exp x / (xs.map Real.exp).sum

/-- Had a softmax actually been applied, its outputs would sum to 1 for
every nonempty atom vector — the property the claim asserts of
`probabilities`. -/
lemma softmaxVec_sum_one (xs : List ℝ) (h : xs ≠ []) :
    (softmaxVec xs).sum = 1 := by
  have hpos : 0 < (xs.map Real.exp).sum := by
    rcases xs with - | ⟨a, tl⟩
    · exact absurd rfl h
    · refine lt_of_lt_of_le (Real.exp_pos a) ?_
      simp only [List.map_cons, List.sum_cons, le_add_iff_nonneg_right]
      exact List.sum_nonneg fun x hx => by
        rcases List.mem_map.1 hx with ⟨y, -, rfl⟩
        exact (Real.exp_pos y).le
  have hne : (xs.map Real.exp).sum ≠ 0 := ne_of_gt hpos
  simp only [softmaxVec, div_eq_mul_inv]
  rw [List.sum_map_mul_right]
  exact mul_inv_cancel₀ hne

/-! ### GymPreprocessing

The wrapped Gym environment is abstracted: spaces, reward range and
metadata are opaque values of arbitrary types, and `reset`/`step` thread an
explicit underlying-environment state (Python mutates it in place). -/

/-- The underlying Gym environment. -/
structure RawEnv (ES Obs Act Rew Info OSp ASp RRg Md RRes : Type) where
  observation_space : OSp
  action_space : ASp
  reward_range : RRg
  metadata : Md
  resetFn : ES → RRes × ES
  stepFn : ES → Act → (Obs × Rew × Bool × Info) × ES

/-- `GymPreprocessing`: holds `self.environment`, the underlying
environment's current state, and `self.game_over`. -/
structure GymPreprocessing (ES Obs Act Rew Info OSp ASp RRg Md RRes : Type)
    where
  environment : RawEnv ES Obs Act Rew Info OSp ASp RRg Md RRes
  envState : ES
  game_over : Bool

section GymPreprocessing

variable {ES Obs Act Rew Info OSp ASp RRg Md RRes : Type}

/-- `GymPreprocessing.__init__`: stores the environment and sets
`self.game_over = False`. -/
def GymPreprocessing.init (env : RawEnv ES Obs Act Rew Info OSp ASp RRg Md RRes)
    (es : ES) : GymPreprocessing ES Obs Act Rew Info OSp ASp RRg Md RRes :=
  ⟨env, es, false⟩

/-- The `observation_space` property. -/
def GymPreprocessing.observation_space
    (w : GymPreprocessing ES Obs Act Rew Info OSp ASp RRg Md RRes) : OSp :=
  w.environment.observation_space

/-- The `action_space` property. -/
def GymPreprocessing.action_space
    (w : GymPreprocessing ES Obs Act Rew Info OSp ASp RRg Md RRes) : ASp :=
  w.environment.action_space

/-- The `reward_range` property. -/
def GymPreprocessing.reward_range
    (w : GymPreprocessing ES Obs Act Rew Info OSp ASp RRg Md RRes) : RRg :=
  w.environment.reward_range

/-- The `metadata` property. -/
def GymPreprocessing.metadata
    (w : GymPreprocessing ES Obs Act Rew Info OSp ASp RRg Md RRes) : Md :=
  w.environment.metadata

/-- `reset`: `return self.environment.reset()`. -/
def GymPreprocessing.reset
    (w : GymPreprocessing ES Obs Act Rew Info OSp ASp RRg Md RRes) :
    RRes × GymPreprocessing ES Obs Act Rew Info OSp ASp RRg Md RRes :=
  let r := w.environment.resetFn w.envState
  (r.1, { w with envState := r.2 })

/-- `step`: delegates to the underlying environment, stores the returned
`game_over` flag, and returns the tuple unchanged. -/
def GymPreprocessing.step
    (w : GymPreprocessing ES Obs Act Rew Info OSp ASp RRg Md RRes) (a : Act) :
    (Obs × Rew × Bool × Info) ×
      GymPreprocessing ES Obs Act Rew Info OSp ASp RRg Md RRes :=
  let r := w.environment.stepFn w.envState a
  (r.1, { w with envState := r.2, game_over := r.1.2.2.1 })

/-- `n` successive `reset()` calls. -/
def resetIter :
    ℕ → GymPreprocessing ES Obs Act Rew Info OSp ASp RRg Md RRes →
      GymPreprocessing ES Obs Act Rew Info OSp ASp RRg Md RRes
  | 0, w => w
  | n + 1, w => resetIter n w.reset.2

end GymPreprocessing

/-- Claim C9: `GymPreprocessing` forwards `observation_space`,
`action_space`, `reward_range` and `metadata` unchanged; `reset()` returns
exactly the underlying `reset()` result; `step(action)` returns exactly the
underlying `(observation, reward, done, info)` tuple and sets the wrapper's
`game_over` to the returned `done` flag (changing nothing else but the
threaded environment state). -/
theorem gymPreprocessing_delegation
    {ES Obs Act Rew Info OSp ASp RRg Md RRes : Type}
    (w : GymPreprocessing ES Obs Act Rew Info OSp ASp RRg Md RRes)
    (a : Act) :
    w.observation_space = w.environment.observation_space ∧
    w.action_space = w.environment.action_space ∧
    w.reward_range = w.environment.reward_range ∧
    w.metadata = w.environment.metadata ∧
    w.reset.1 = (w.environment.resetFn w.envState).1 ∧
    (w.step a).1 = (w.environment.stepFn w.envState a).1 ∧
    (w.step a).2.game_over = (w.environment.stepFn w.envState a).1.2.2.1 ∧
    (w.step a).2.environment = w.environment ∧
    (w.step a).2.envState = (w.environment.stepFn w.envState a).2 :=
  ⟨rfl, rfl, rfl, rfl, rfl, rfl, rfl, rfl, rfl⟩

/-- Claim C10: `reset()` leaves `game_over` unchanged; `game_over` is
written only by the constructor (to `false`) and by `step` (to the
underlying `done` flag), so it persists across any number of `reset()`
calls. -/
theorem gymPreprocessing_game_over_frame
    {ES Obs Act Rew Info OSp ASp RRg Md RRes : Type}
    (env : RawEnv ES Obs Act Rew Info OSp ASp RRg Md RRes) (es : ES)
    (w : GymPreprocessing ES Obs Act Rew Info OSp ASp RRg Md RRes)
    (a : Act) (n : ℕ) :
    (GymPreprocessing.init env es).game_over = false ∧
    w.reset.2.game_over = w.game_over ∧
    (resetIter n w).game_over = w.game_over ∧
    (w.step a).2.game_over = (w.environment.stepFn w.envState a).1.2.2.1 := by
  refine ⟨rfl, rfl, ?_, rfl⟩
  induction n generalizing w with
  | zero => rfl
  | succ n ih => exact (ih w.reset.2).trans rfl

end GymLib
